import Mathlib

/-!
Shallow embedding of src/msd_magic_prep_cycle_simulation.py.

The Python module simulates the magic-state preparation cycle of a
cultivation + MSD scheme: a discrete-time tick loop over per-patch state
machines (class AuxPatch), a per-group cultivation-start throttle, an
idling slot per group, and a causal consumption gate.

Embedding conventions:
* The Python status values (None, "cult", "growing", "idling", "consumed")
  become the inductive type Status.
* np.random draws are abstracted into an oracle stream o : Nat -> Bool;
  the simulation state carries the position of the next unread bit
  (each np.random.choice call reads exactly one bit).  Quantifying over
  all oracles covers every possible sequence of Bernoulli outcomes; the
  numeric probabilities psucc_cult / psucc_growing only shape the
  distribution of that stream, except that the code evaluates
  1 - psucc_growing at the growing draw, which raises a TypeError when
  psucc_growing is None -- modelled as SimError.psucc_growing_missing.
* The unbounded while-loop becomes fuel-indexed iteration; Option.none as
  a loop result means the fuel ran out (the claims all condition on runs
  that terminate).
* Patches are stored as an arena (List AuxPatch, group 0 patches first),
  and the idling slots hold arena indices, mirroring Python's shared
  object references.
* ceil on Python floats is modelled as the exact rational ceiling.
* verbose printing is ignored (it does not touch the simulation state).
-/

/-- Status of a patch: Python uses None and the strings
"cult", "growing", "idling", "consumed". -/
inductive Status where
  | none
  | cult
  | growing
  | idling
  | consumed
deriving DecidableEq, Repr

/-- Python class AuxPatch: status, local clock, group (0 = left, 1 = right). -/
structure AuxPatch where
  status : Status
  clock : Nat
  group : Fin 2
deriving DecidableEq, Repr

/-- AuxPatch.change_status: set the status and reset the local clock to 0. -/
def AuxPatch.change_status (p : AuxPatch) (s : Status) : AuxPatch :=
  { p with status := s, clock := 0 }

/-- Parameters of simulate_msd (seed is handled by simulate_seeded below;
verbose only controls printing and is omitted). -/
structure Params where
  dcult : Nat
  dm : Nat
  Nm : Nat
  psucc_cult : ℚ
  t_cult : Nat
  post_selected_growing : Bool := true
  psucc_growing : Option ℚ := Option.none
  num_stages : Nat := 1000
  get_all : Bool := false

/-- Line 75: T_cult = ceil(t_cult / 8 - 1e-6), as an exact rational ceiling. -/
def T_cult (t_cult : Nat) : Int := ⌈(t_cult : ℚ) / 8 - 1 / 1000000⌉

/-- Line 77: Tm = ceil(T_cult / Nm), as an exact rational ceiling. -/
def Tm_int (T_cult Nm : Nat) : Int := ⌈(T_cult : ℚ) / (Nm : ℚ)⌉

/-- The integer constants the tick loop consumes (lines 75-80 plus the
parameters it reads directly). -/
structure Consts where
  dm : Nat
  Nm : Nat
  T_cult : Nat
  need_growing : Bool
  Tm : Nat
  post_selected_growing : Bool
  T_growing : Nat
  psucc_growing : Option ℚ
  num_stages : Nat

/-- Parameter derivation, lines 75-80:
T_cult = ceil(t_cult/8 - 1e-6); need_growing = dm > dcult;
Tm = ceil(T_cult / Nm); post_selected_growing &&= need_growing;
T_growing = dm if post_selected_growing else 1. -/
def derive (p : Params) : Consts :=
  let T_cult' : Nat := (T_cult p.t_cult).toNat
  let need_growing : Bool := decide (p.dcult < p.dm)
  let post_sel : Bool := p.post_selected_growing && need_growing
  { dm := p.dm
    Nm := p.Nm
    T_cult := T_cult'
    need_growing := need_growing
    Tm := (Tm_int T_cult' p.Nm).toNat
    post_selected_growing := post_sel
    T_growing := if post_sel then p.dm else 1
    psucc_growing := p.psucc_growing
    num_stages := p.num_stages }

/-- Mutable state of the tick loop (lines 92-103): the patch arena
(left patches then right patches), the two idling slots (arena indices),
the sample streams, the stage clock, the two cultivation clocks, and the
position of the next unread oracle bit. -/
structure SimState where
  patches : List AuxPatch
  idling_patches : Option Nat × Option Nat
  Ts_idle : List Nat
  stage_clock : Nat
  cult_clock : Nat × Nat
  Ts_intv : List Nat
  pos : Nat
deriving DecidableEq, Repr

/-- Read a per-group pair at a group index. -/
def get2 {α : Type} (x : α × α) : Fin 2 → α
  | ⟨0, _⟩ => x.1
  | ⟨1, _⟩ => x.2

/-- Write a per-group pair at a group index. -/
def set2 {α : Type} (x : α × α) : Fin 2 → α → α × α
  | ⟨0, _⟩, a => (a, x.2)
  | ⟨1, _⟩, a => (x.1, a)

/-- The only failure of the Python code modelled here: evaluating
1 - psucc_growing at the growing draw when psucc_growing is None
(a TypeError in Python). -/
inductive SimError where
  | psucc_growing_missing
deriving DecidableEq, Repr

/-- Lines 105-111, start_cult_or_not(patch): if the group's cultivation
clock has reached Tm, restart cultivation (and reset the group clock);
otherwise, if the patch has any non-None status, demote it to None. -/
def start_cult_or_not (C : Consts) (s : SimState) (i : Nat) : SimState :=
  match s.patches[i]? with
  | Option.none => s
  | some patch =>
    if C.Tm ≤ get2 s.cult_clock patch.group then
      { s with
        patches := s.patches.set i (patch.change_status Status.cult)
        cult_clock := set2 s.cult_clock patch.group 0 }
    else if patch.status ≠ Status.none then
      { s with patches := s.patches.set i (patch.change_status Status.none) }
    else s

/-- Lines 138-142 and 156-160: occupy the group's idling slot.  If the
slot already holds a patch, first run start_cult_or_not on the previous
occupant, then set this patch to idling and point the slot at it. -/
def become_idling (C : Consts) (s : SimState) (i : Nat) : SimState :=
  match s.patches[i]? with
  | Option.none => s
  | some patch =>
    let g := patch.group
    let s1 :=
      match get2 s.idling_patches g with
      | Option.none => s
      | some j => start_cult_or_not C s j
    let s2 :=
      match s1.patches[i]? with
      | Option.none => s1
      | some p' =>
        { s1 with patches := s1.patches.set i (p'.change_status Status.idling) }
    { s2 with idling_patches := set2 s2.idling_patches g (some i) }

/-- Lines 122-165, the per-patch transition rule for the patch at arena
index i, given the consumable flag of the current tick.  Oracle bits are
read at exactly the points where the Python code calls np.random.choice. -/
def patch_step (C : Consts) (o : Nat → Bool) (consumable : Bool)
    (s : SimState) (i : Nat) : Except SimError SimState :=
  match s.patches[i]? with
  | Option.none => Except.ok s
  | some patch =>
    if patch.status = Status.none then
      Except.ok (start_cult_or_not C s i)
    else if patch.status = Status.cult ∧ patch.clock = C.T_cult then
      let cult_success : Bool × Nat :=
        if consumable || C.need_growing then (o s.pos, s.pos + 1)
        else (false, s.pos)
      let s := { s with pos := cult_success.2 }
      if cult_success.1 then
        if C.need_growing then
          Except.ok
            { s with patches := s.patches.set i (patch.change_status Status.growing) }
        else
          Except.ok (become_idling C s i)
      else
        Except.ok (start_cult_or_not C s i)
    else if patch.status = Status.growing ∧ patch.clock = C.T_growing then
      if consumable then
        match C.psucc_growing with
        | Option.none => Except.error SimError.psucc_growing_missing
        | some _ =>
          let b := o s.pos
          let s := { s with pos := s.pos + 1 }
          if b then Except.ok (become_idling C s i)
          else Except.ok (start_cult_or_not C s i)
      else
        Except.ok (start_cult_or_not C s i)
    else if patch.status = Status.consumed ∧ patch.clock = C.dm + 1 then
      Except.ok (start_cult_or_not C s i)
    else
      Except.ok s

/-- Lines 114-118: increment the stage clock, both cultivation clocks and
every patch clock. -/
def advance_clocks (s : SimState) : SimState :=
  { s with
    stage_clock := s.stage_clock + 1
    cult_clock := (s.cult_clock.1 + 1, s.cult_clock.2 + 1)
    patches := s.patches.map fun p => { p with clock := p.clock + 1 } }

/-- Line 120: consumable = stage_clock > dm or not Ts_intv. -/
def consumableOf (C : Consts) (s : SimState) : Bool :=
  decide (C.dm < s.stage_clock) || s.Ts_intv.isEmpty

/-- Lines 167-173: if the tick is consumable and both idling slots are
occupied, append both occupants' clocks to Ts_idle (slot 0 first), set
both occupants to consumed, clear the slots, append the stage clock to
Ts_intv and reset it. -/
def consume_block (consumable : Bool) (s : SimState) : SimState :=
  match consumable, s.idling_patches.1, s.idling_patches.2 with
  | true, some i, some j =>
    let p0 := s.patches.getD i (AuxPatch.mk Status.none 0 0)
    let s1 :=
      { s with
        Ts_idle := s.Ts_idle ++ [p0.clock]
        patches := s.patches.set i (p0.change_status Status.consumed) }
    let p1 := s1.patches.getD j (AuxPatch.mk Status.none 0 0)
    let s2 :=
      { s1 with
        Ts_idle := s1.Ts_idle ++ [p1.clock]
        patches := s1.patches.set j (p1.change_status Status.consumed) }
    { s2 with
      idling_patches := (Option.none, Option.none)
      Ts_intv := s2.Ts_intv ++ [s2.stage_clock]
      stage_clock := 0 }
  | _, _, _ => s

/-- Apply patch_step to n consecutive arena indices starting at i
(the body of the for-loop over all_patches at lines 122-165). -/
def run_patches (C : Consts) (o : Nat → Bool) (consumable : Bool) :
    Nat → Nat → SimState → Except SimError SimState
  | 0, _, s => Except.ok s
  | Nat.succ n, i, s =>
    match patch_step C o consumable s i with
    | Except.error e => Except.error e
    | Except.ok s' => run_patches C o consumable n (i + 1) s'

/-- One iteration of the while-loop body (lines 114-173): advance all
clocks, compute the consumable flag, run every patch's transition in
arena order, then run the consumption block. -/
def tick (C : Consts) (o : Nat → Bool) (s : SimState) : Except SimError SimState :=
  let s1 := advance_clocks s
  let c := consumableOf C s1
  match run_patches C o c s1.patches.length 0 s1 with
  | Except.error e => Except.error e
  | Except.ok s2 => Except.ok (consume_block c s2)

/-- Lines 113-189: the while-loop, with fuel.  Returns the final state
once len(Ts_intv) == num_stages; Option.none means the fuel ran out. -/
def loop (C : Consts) (o : Nat → Bool) :
    Nat → SimState → Except SimError (Option SimState)
  | 0, _ => Except.ok Option.none
  | Nat.succ fuel, s =>
    match tick C o s with
    | Except.error e => Except.error e
    | Except.ok s' =>
      if s'.Ts_intv.length = C.num_stages then Except.ok (some s')
      else loop C o fuel s'

/-- Lines 92-103: all patches start at status None with clock 0, then
left_patches[0] and right_patches[0] are changed to "cult"; both idling
slots empty, both streams empty, all clocks 0. -/
def init_state (C : Consts) : SimState :=
  let ps : List AuxPatch :=
    List.replicate C.Nm (AuxPatch.mk Status.none 0 0)
      ++ List.replicate C.Nm (AuxPatch.mk Status.none 0 1)
  let ps := ps.set 0 (AuxPatch.mk Status.cult 0 0)
  let ps := ps.set C.Nm (AuxPatch.mk Status.cult 0 1)
  { patches := ps
    idling_patches := (Option.none, Option.none)
    Ts_idle := []
    stage_clock := 0
    cult_clock := (0, 0)
    Ts_intv := []
    pos := 0 }

/-- np.mean: the arithmetic mean, with Option.none standing for the NaN
numpy silently returns on an empty input. -/
def npMean (l : List Nat) : Option ℚ :=
  if l.length = 0 then Option.none
  else some ((l.map fun x => (x : ℚ)).sum / l.length)

/-- The square of np.std(l, ddof=1) (sample standard deviation with
Bessel's correction); squared so the value stays rational.  Option.none
stands for the NaN numpy silently returns when fewer than 2 samples are
present (division by ddof-corrected count 0, or empty mean). -/
def npStdSqDdof1 (l : List Nat) : Option ℚ :=
  if l.length < 2 then Option.none
  else
    let m : ℚ := (l.map fun x => (x : ℚ)).sum / l.length
    some ((l.map fun x => ((x : ℚ) - m) ^ 2).sum / ((l.length : ℚ) - 1))

/-- The square of the standard error np.std(l, ddof=1) / np.sqrt(len(l)). -/
def npSeSq (l : List Nat) : Option ℚ :=
  (npStdSqDdof1 l).map fun v => v / (l.length : ℚ)

/-- Return value of simulate_msd: raw mode (get_all=True) returns
(Ts_intv[1:], Ts_idle); reduced mode returns the means and (squared)
standard errors of both streams. -/
inductive SimResult where
  | raw (Ts_intv : List Nat) (Ts_idle : List Nat)
  | reduced (T_intv : Option ℚ) (T_intv_seSq : Option ℚ)
      (T_idle : Option ℚ) (T_idle_seSq : Option ℚ)
deriving DecidableEq, Repr

/-- simulate_msd: derive the constants, run the tick loop from the
initial state, then (lines 191-200) either return the raw streams with
the first interval dropped, or reduce both streams to mean and standard
error.  Option.none means the fuel ran out before num_stages was reached. -/
def simulate_msd (p : Params) (o : Nat → Bool) (fuel : Nat) :
    Except SimError (Option SimResult) :=
  let C := derive p
  match loop C o fuel (init_state C) with
  | Except.error e => Except.error e
  | Except.ok Option.none => Except.ok Option.none
  | Except.ok (some sf) =>
    if p.get_all then
      Except.ok (some (SimResult.raw (sf.Ts_intv.drop 1) sf.Ts_idle))
    else
      let Ts_intv := sf.Ts_intv.drop 1
      Except.ok (some (SimResult.reduced (npMean Ts_intv) (npSeSq Ts_intv)
        (npMean sf.Ts_idle) (npSeSq sf.Ts_idle)))

/-- Line 73, np.random.seed(seed): with a non-null seed the global
generator is reseeded deterministically, so the oracle stream is a pure
function (prng) of the seed; with seed None, numpy seeds from ambient OS
entropy, modelled by the extra entropy stream. -/
def simulate_seeded (prng : Nat → Nat → Bool) (entropy : Nat → Bool)
    (p : Params) (seed : Option Nat) (fuel : Nat) :
    Except SimError (Option SimResult) :=
  simulate_msd p
    (match seed with
     | some sd => prng sd
     | Option.none => entropy) fuel

/-- An oracle whose every draw succeeds. -/
def oracleTrue : Nat → Bool := fun _ => true

/-- An oracle whose every draw fails. -/
def oracleFalse : Nat → Bool := fun _ => false

/-- A pseudorandom generator stub for the determinism statement. -/
def prngTrue : Nat → Nat → Bool := fun _ _ => true

/-- The idling-slot invariant over a patch arena and the two slots: every
occupied slot points to an idling patch of its own group, and every
idling patch of a group is the one its group's slot points to (hence at
most one idling patch per group, and an empty slot means no idling
patch of that group exists). -/
def IdlingInvOn (patches : List AuxPatch) (slots : Option Nat × Option Nat) : Prop :=
  ∀ g : Fin 2,
    (∀ j : Nat, get2 slots g = some j →
      ∃ q : AuxPatch, patches[j]? = some q ∧ q.group = g ∧ q.status = Status.idling) ∧
    (∀ (i : Nat) (q : AuxPatch), patches[i]? = some q → q.group = g →
      q.status = Status.idling → get2 slots g = some i)

/-- The idling-slot invariant of a simulation state. -/
def IdlingInv (s : SimState) : Prop :=
  IdlingInvOn s.patches s.idling_patches

/-- No patch of the arena has GROWING status. -/
def NoGrowingOn (patches : List AuxPatch) : Prop :=
  ∀ (i : Nat) (q : AuxPatch), patches[i]? = some q → q.status ≠ Status.growing

/-- Invariant of the sample streams: two idle samples per interval
sample, all interval samples after the first exceed dm, and all interval
samples are positive. -/
def StreamInv (C : Consts) (s : SimState) : Prop :=
  s.Ts_idle.length = 2 * s.Ts_intv.length ∧
  (∀ x ∈ s.Ts_intv.drop 1, C.dm < x) ∧
  (∀ x ∈ s.Ts_intv, 0 < x)

/-- States reachable from the initial state by the operations the tick
loop performs: advancing the clocks, one patch's transition (with any
consumable flag), and the consumption block.  This includes every
intermediate state inside a tick, not only tick boundaries. -/
inductive Reachable (C : Consts) (o : Nat → Bool) : SimState → Prop where
  | init : Reachable C o (init_state C)
  | clocks {s : SimState} : Reachable C o s → Reachable C o (advance_clocks s)
  | patch {s s' : SimState} {c : Bool} {i : Nat} :
      Reachable C o s → patch_step C o c s i = Except.ok s' → Reachable C o s'
  | consume {s : SimState} {c : Bool} :
      Reachable C o s → Reachable C o (consume_block c s)

/-- Concrete parameters: dcult = dm = 1 (no growing), one patch per side,
t_cult = 8 (so T_cult = 1 and Tm = 1), a single stage, raw mode. -/
def pC3 : Params :=
  { dcult := 1
    dm := 1
    Nm := 1
    psucc_cult := 1
    t_cult := 8
    post_selected_growing := true
    psucc_growing := Option.none
    num_stages := 1
    get_all := true }

/-- Same as pC3 but simulating two stages. -/
def pC2 : Params :=
  { pC3 with num_stages := 2 }

/-- Same as pC3 but in reduced (statistics) mode. -/
def pC7 : Params :=
  { pC3 with get_all := false }

/-- Concrete parameters with dm > dcult (growing needed) but
psucc_growing left as None. -/
def pC6 : Params :=
  { dcult := 1
    dm := 2
    Nm := 1
    psucc_cult := 1
    t_cult := 8
    post_selected_growing := true
    psucc_growing := Option.none
    num_stages := 1
    get_all := true }

/-- The constants derive produces from pC3 (and pC7). -/
def Cc1 : Consts :=
  { dm := 1
    Nm := 1
    T_cult := 1
    need_growing := false
    Tm := 1
    post_selected_growing := false
    T_growing := 1
    psucc_growing := Option.none
    num_stages := 1 }

/-- The constants derive produces from pC2. -/
def Cc2 : Consts :=
  { Cc1 with num_stages := 2 }

/-- The constants derive produces from pC6. -/
def Cc6 : Consts :=
  { dm := 2
    Nm := 1
    T_cult := 1
    need_growing := true
    Tm := 1
    post_selected_growing := true
    T_growing := 2
    psucc_growing := Option.none
    num_stages := 1 }

/-- Final state of the terminating run of pC3 under the all-true oracle
(one consumption at tick 1). -/
def wStateC3 : SimState :=
  { patches := [AuxPatch.mk Status.consumed 0 0, AuxPatch.mk Status.consumed 0 1]
    idling_patches := (Option.none, Option.none)
    Ts_idle := [0, 0]
    stage_clock := 0
    cult_clock := (1, 1)
    Ts_intv := [1]
    pos := 2 }

/-- Final state of the terminating run of pC2 under the all-true oracle
(consumptions at ticks 1 and 4). -/
def wStateC2 : SimState :=
  { patches := [AuxPatch.mk Status.consumed 0 0, AuxPatch.mk Status.consumed 0 1]
    idling_patches := (Option.none, Option.none)
    Ts_idle := [0, 0, 0, 0]
    stage_clock := 0
    cult_clock := (1, 1)
    Ts_intv := [1, 3]
    pos := 4 }

/-! Helper lemmas -/

theorem get2_set2_self {α : Type} (x : α × α) (g : Fin 2) (a : α) :
    get2 (set2 x g a) g = a := by
  fin_cases g <;> rfl

theorem get2_set2_ne {α : Type} (x : α × α) (g g' : Fin 2) (a : α) (h : g ≠ g') :
    get2 (set2 x g a) g' = get2 x g' := by
  fin_cases g <;> fin_cases g' <;> first | rfl | exact absurd rfl h

theorem get2_zero {α : Type} (x : α × α) : get2 x 0 = x.1 := rfl

theorem get2_one {α : Type} (x : α × α) : get2 x 1 = x.2 := rfl

theorem T_cult_8 : T_cult 8 = 1 := by
  unfold T_cult
  norm_num [Int.ceil_eq_iff]

theorem Tm_1_1 : Tm_int 1 1 = 1 := by
  unfold Tm_int
  norm_num

theorem derive_pC3 : derive pC3 = Cc1 := by
  unfold derive pC3 Cc1
  simp only [Consts.mk.injEq, T_cult_8, Int.toNat_one, Tm_1_1]
  norm_num

theorem derive_pC7 : derive pC7 = Cc1 := by
  unfold derive pC7 pC3 Cc1
  simp only [Consts.mk.injEq, T_cult_8, Int.toNat_one, Tm_1_1]
  norm_num

theorem derive_pC2 : derive pC2 = Cc2 := by
  unfold derive pC2 pC3 Cc2 Cc1
  simp only [Consts.mk.injEq, T_cult_8, Int.toNat_one, Tm_1_1]
  norm_num

theorem derive_pC6 : derive pC6 = Cc6 := by
  unfold derive pC6 Cc6
  simp only [Consts.mk.injEq, T_cult_8, Int.toNat_one, Tm_1_1]
  norm_num

/-- start_cult_or_not only touches the patch arena (length-preserving)
and the cultivation clocks. -/
theorem scon_frame (C : Consts) (s : SimState) (i : Nat) :
    (start_cult_or_not C s i).Ts_intv = s.Ts_intv ∧
    (start_cult_or_not C s i).Ts_idle = s.Ts_idle ∧
    (start_cult_or_not C s i).stage_clock = s.stage_clock ∧
    (start_cult_or_not C s i).idling_patches = s.idling_patches ∧
    (start_cult_or_not C s i).pos = s.pos ∧
    (start_cult_or_not C s i).patches.length = s.patches.length := by
  unfold start_cult_or_not
  split
  · exact ⟨rfl, rfl, rfl, rfl, rfl, rfl⟩
  · split
    · exact ⟨rfl, rfl, rfl, rfl, rfl, by simp⟩
    · split
      · exact ⟨rfl, rfl, rfl, rfl, rfl, by simp⟩
      · exact ⟨rfl, rfl, rfl, rfl, rfl, rfl⟩

/-- become_idling only touches the patch arena (length-preserving), the
idling slots and the cultivation clocks. -/
theorem bi_frame (C : Consts) (s : SimState) (i : Nat) :
    (become_idling C s i).Ts_intv = s.Ts_intv ∧
    (become_idling C s i).Ts_idle = s.Ts_idle ∧
    (become_idling C s i).stage_clock = s.stage_clock ∧
    (become_idling C s i).pos = s.pos ∧
    (become_idling C s i).patches.length = s.patches.length := by
  unfold become_idling
  split
  · exact ⟨rfl, rfl, rfl, rfl, rfl⟩
  · rename_i patch hpatch
    dsimp only
    cases hslot : get2 s.idling_patches patch.group with
    | none =>
      dsimp only
      split
      · exact ⟨rfl, rfl, rfl, rfl, rfl⟩
      · exact ⟨rfl, rfl, rfl, rfl, by simp⟩
    | some j =>
      dsimp only
      obtain ⟨h1, h2, h3, h4, h5, h6⟩ := scon_frame C s j
      split
      · exact ⟨h1, h2, h3, h5, h6⟩
      · exact ⟨h1, h2, h3, h5, by simp [h6]⟩

/-- patch_step leaves the sample streams, the stage clock and the arena
length unchanged. -/
theorem patch_step_frame (C : Consts) (o : Nat → Bool) (c : Bool) (s : SimState)
    (i : Nat) (s' : SimState) (h : patch_step C o c s i = Except.ok s') :
    s'.Ts_intv = s.Ts_intv ∧ s'.Ts_idle = s.Ts_idle ∧
    s'.stage_clock = s.stage_clock ∧ s'.patches.length = s.patches.length := by
  unfold patch_step at h
  split at h
  · cases h
    exact ⟨rfl, rfl, rfl, rfl⟩
  · dsimp only at h
    repeat' split at h
    all_goals try dsimp only at h
    all_goals (cases h <;> first
      | exact ⟨rfl, rfl, rfl, by simp⟩
      | (obtain ⟨h1, h2, h3, h5, h6⟩ := bi_frame C _ i
         exact ⟨h1, h2, h3, by simp [h6]⟩)
      | (obtain ⟨h1, h2, h3, h4, h5, h6⟩ := scon_frame C _ i
         exact ⟨h1, h2, h3, by simp [h6]⟩))

/-- The whole per-tick patch pass leaves the sample streams, the stage
clock and the arena length unchanged. -/
theorem run_patches_frame (C : Consts) (o : Nat → Bool) (c : Bool) :
    ∀ (n i : Nat) (s s' : SimState), run_patches C o c n i s = Except.ok s' →
      s'.Ts_intv = s.Ts_intv ∧ s'.Ts_idle = s.Ts_idle ∧
      s'.stage_clock = s.stage_clock ∧ s'.patches.length = s.patches.length := by
  intro n
  induction n with
  | zero =>
    intro i s s' h
    cases h
    exact ⟨rfl, rfl, rfl, rfl⟩
  | succ n ih =>
    intro i s s' h
    unfold run_patches at h
    split at h
    · cases h
    · rename_i s1 hstep
      obtain ⟨a1, a2, a3, a4⟩ := patch_step_frame C o c s i s1 hstep
      obtain ⟨b1, b2, b3, b4⟩ := ih (i + 1) s1 s' h
      exact ⟨b1.trans a1, b2.trans a2, b3.trans a3, b4.trans a4⟩

/-- The consumption block either does nothing, or (when the tick is
consumable and both slots are occupied) appends two idle samples and one
interval sample equal to the current stage clock. -/
theorem consume_block_cases (c : Bool) (s : SimState) :
    consume_block c s = s ∨
    (c = true ∧ ∃ a b : Nat,
      (consume_block c s).Ts_idle = (s.Ts_idle ++ [a]) ++ [b] ∧
      (consume_block c s).Ts_intv = s.Ts_intv ++ [s.stage_clock]) := by
  unfold consume_block
  split
  · right
    exact ⟨rfl, _, _, rfl, rfl⟩
  · left
    rfl

/-- One tick preserves the stream invariant. -/
theorem tick_stream (C : Consts) (o : Nat → Bool) (s s' : SimState)
    (hInv : StreamInv C s) (h : tick C o s = Except.ok s') : StreamInv C s' := by
  unfold tick at h
  dsimp only at h
  split at h
  · cases h
  · rename_i s2 hpass
    cases h
    obtain ⟨f1, f2, f3, f4⟩ := run_patches_frame C o _ _ _ _ _ hpass
    obtain ⟨hlen, hgate, hpos⟩ := hInv
    have e1 : s2.Ts_intv = s.Ts_intv := f1
    have e2 : s2.Ts_idle = s.Ts_idle := f2
    have e3 : s2.stage_clock = s.stage_clock + 1 := f3
    rcases consume_block_cases (consumableOf C (advance_clocks s)) s2 with hcb | hcb
    · rw [hcb]
      exact ⟨by rw [e1, e2]; exact hlen, by rw [e1]; exact hgate, by rw [e1]; exact hpos⟩
    · obtain ⟨hc, a, b, hidle, hintv⟩ := hcb
      refine ⟨?_, ?_, ?_⟩
      · rw [hidle, hintv, e1, e2]
        simp [hlen, Nat.mul_add]
      · intro x hx
        rw [hintv, e1, e3] at hx
        rcases Decidable.em (s.Ts_intv = []) with hemp | hemp
        · rw [hemp] at hx
          simp at hx
        · rw [List.drop_append_of_le_length
            (Nat.one_le_iff_ne_zero.mpr (by simpa using hemp))] at hx
          rcases List.mem_append.mp hx with hx | hx
          · exact hgate x hx
          · have hxeq : x = s.stage_clock + 1 := by simpa using hx
            unfold consumableOf at hc
            rcases Bool.or_eq_true_iff.mp hc with hc2 | hc2
            · have hlt : C.dm < (advance_clocks s).stage_clock := of_decide_eq_true hc2
              have hsc : (advance_clocks s).stage_clock = s.stage_clock + 1 := rfl
              omega
            · have : s.Ts_intv = [] := by simpa using hc2
              exact absurd this hemp
      · intro x hx
        rw [hintv, e1, e3] at hx
        rcases List.mem_append.mp hx with hx | hx
        · exact hpos x hx
        · have hxeq : x = s.stage_clock + 1 := by simpa using hx
          omega

/-- The initial state satisfies the stream invariant (both streams empty). -/
theorem init_stream (C : Consts) : StreamInv C (init_state C) := by
  refine ⟨rfl, ?_, ?_⟩ <;> intro x hx <;> simp [init_state] at hx

/-- A terminating loop run preserves the stream invariant and stops with
exactly num_stages interval samples. -/
theorem loop_ok_stream (C : Consts) (o : Nat → Bool) :
    ∀ (fuel : Nat) (s sf : SimState), StreamInv C s →
      loop C o fuel s = Except.ok (some sf) →
      StreamInv C sf ∧ sf.Ts_intv.length = C.num_stages := by
  intro fuel
  induction fuel with
  | zero =>
    intro s sf _ h
    unfold loop at h
    exact absurd h (by simp)
  | succ n ih =>
    intro s sf hInv h
    unfold loop at h
    split at h
    · cases h
    · rename_i s1 htick
      have hInv1 := tick_stream C o s s1 hInv htick
      split at h
      · rename_i hlen
        cases h
        exact ⟨hInv1, hlen⟩
      · exact ih s1 sf hInv1 h

/-- C1: in every terminating run, every interval sample recorded after
the first one strictly exceeds dm: a consumption appends the global
stage clock to the interval stream, and once that stream is non-empty
the consumable gate requires the stage clock to exceed dm. -/
theorem causal_gate (p : Params) (o : Nat → Bool) (fuel : Nat) (sf : SimState)
    (h : loop (derive p) o fuel (init_state (derive p)) = Except.ok (some sf)) :
    ∀ x ∈ sf.Ts_intv.drop 1, p.dm < x := by
  have hres := loop_ok_stream (derive p) o fuel (init_state (derive p)) sf
    (init_stream (derive p)) h
  exact hres.1.2.1

/-- Witness for C1 at the concrete two-stage run pC2. -/
theorem causal_gate_witness :
    (loop (derive pC2) oracleTrue 4 (init_state (derive pC2)) =
      Except.ok (some wStateC2)) ∧ pC2.dm < 3 := by
  have hloop : loop (derive pC2) oracleTrue 4 (init_state (derive pC2)) =
      Except.ok (some wStateC2) := by
    rw [derive_pC2]
    rfl
  exact ⟨hloop, causal_gate pC2 oracleTrue 4 wStateC2 hloop 3 (by decide)⟩

/-- C2: a terminating raw-mode run returns exactly numStages - 1
interval samples (one appended per consumption, the first dropped) and
exactly 2 * numStages idle-time samples (two per consumption), the loop
stopping exactly when the interval stream reaches numStages. -/
theorem sample_counts (p : Params) (o : Nat → Bool) (fuel : Nat)
    (tv ti : List Nat) (hga : p.get_all = true) (hns : 1 ≤ p.num_stages)
    (h : simulate_msd p o fuel = Except.ok (some (SimResult.raw tv ti))) :
    tv.length + 1 = p.num_stages ∧ ti.length = 2 * p.num_stages := by
  unfold simulate_msd at h
  dsimp only at h
  split at h
  · cases h
  · cases h
  · rename_i sf hloop
    rw [hga] at h
    simp only [if_true] at h
    have hres := loop_ok_stream (derive p) o fuel (init_state (derive p)) sf
      (init_stream (derive p)) hloop
    have hlen : sf.Ts_idle.length = 2 * sf.Ts_intv.length := hres.1.1
    have hns' : sf.Ts_intv.length = p.num_stages := hres.2
    cases h
    constructor
    · simp only [List.length_drop]
      omega
    · omega

/-- Witness for C2 at the concrete two-stage run pC2. -/
theorem sample_counts_witness :
    pC2.get_all = true ∧ 1 ≤ pC2.num_stages ∧
    simulate_msd pC2 oracleTrue 4 =
      Except.ok (some (SimResult.raw [3] [0, 0, 0, 0])) ∧
    ([3] : List Nat).length + 1 = pC2.num_stages ∧
    ([0, 0, 0, 0] : List Nat).length = 2 * pC2.num_stages := by
  have hsim : simulate_msd pC2 oracleTrue 4 =
      Except.ok (some (SimResult.raw [3] [0, 0, 0, 0])) := by
    unfold simulate_msd
    rw [derive_pC2]
    rfl
  have hc := sample_counts pC2 oracleTrue 4 [3] [0, 0, 0, 0] rfl (by decide) hsim
  exact ⟨rfl, by decide, hsim, hc.1, hc.2⟩

/-- C3 counterexample: the terminating raw-mode run of pC3 under the
all-true oracle records the idle-time samples [0, 0] -- both patches
become idling and are consumed within the same tick, so their clocks
are 0 -- contradicting the claim that every idle-time sample is a
positive integer. -/
theorem positivity_counterexample :
    simulate_msd pC3 oracleTrue 5 = Except.ok (some (SimResult.raw [] [0, 0])) ∧
    (0 : Nat) ∈ [0, 0] ∧ ¬ 0 < (0 : Nat) := by
  refine ⟨?_, by decide, by decide⟩
  unfold simulate_msd
  rw [derive_pC3]
  rfl

/-- C3 amended: every interval sample of a terminating run is a positive
integer, and every idle-time sample is a non-negative integer (it can be
0 when a patch becomes idling and is consumed in the same tick). -/
theorem positivity_amended (p : Params) (o : Nat → Bool) (fuel : Nat) (sf : SimState)
    (h : loop (derive p) o fuel (init_state (derive p)) = Except.ok (some sf)) :
    (∀ x ∈ sf.Ts_intv, 0 < x) ∧ (∀ x ∈ sf.Ts_idle, 0 ≤ x) := by
  have hres := loop_ok_stream (derive p) o fuel (init_state (derive p)) sf
    (init_stream (derive p)) h
  exact ⟨hres.1.2.2, fun x _ => Nat.zero_le x⟩

/-- Witness for the amended C3 at the concrete one-stage run pC3. -/
theorem positivity_amended_witness :
    (loop (derive pC3) oracleTrue 5 (init_state (derive pC3)) =
      Except.ok (some wStateC3)) ∧ 0 < 1 := by
  have hloop : loop (derive pC3) oracleTrue 5 (init_state (derive pC3)) =
      Except.ok (some wStateC3) := by
    rw [derive_pC3]
    rfl
  exact ⟨hloop, (positivity_amended pC3 oracleTrue 5 wStateC3 hloop).1 1 (by decide)⟩

/-- C4: for fixed parameters and a fixed non-null seed the simulation is
deterministic: the oracle stream is the pure function prng of the seed
(np.random.seed is called with it at entry), so the ambient entropy
stream -- the only other randomness source, used when seed is None --
cannot influence the returned interval and idle-time sequences. -/
theorem determinism (prng : Nat → Nat → Bool) (entropy1 entropy2 : Nat → Bool)
    (p : Params) (seed : Option Nat) (fuel : Nat) (sd : Nat) (h : seed = some sd) :
    simulate_seeded prng entropy1 p seed fuel =
      simulate_seeded prng entropy2 p seed fuel := by
  subst h
  rfl

/-- Witness for C4 at concrete parameters, seed and entropy streams. -/
theorem determinism_witness :
    (some 0 = some (0 : Nat)) ∧
    simulate_seeded prngTrue oracleTrue pC2 (some 0) 4 =
      simulate_seeded prngTrue oracleFalse pC2 (some 0) 4 :=
  ⟨rfl, determinism prngTrue oracleTrue oracleFalse pC2 (some 0) 4 0 rfl⟩

/-- C8: the derived growth duration T_growing equals dm exactly when
post-selection on growth is enabled (requested and dm > dcult), and 1
otherwise -- in particular whenever growth exists but post-selection is
not requested. -/
theorem T_growing_spec (p : Params) :
    (derive p).T_growing =
      if p.post_selected_growing = true ∧ p.dcult < p.dm then p.dm else 1 := by
  unfold derive
  dsimp only
  by_cases h1 : p.post_selected_growing = true <;>
    by_cases h2 : p.dcult < p.dm <;>
      simp [h1, h2]

/-- C10: for every positive integer t_cult, the epsilon subtraction in
T_cult = ceil(t_cult/8 - 1e-6) never changes the integer result (it
equals ceil(t_cult/8) exactly), and T_cult is at least 1. -/
theorem T_cult_eps (t : Nat) (h : 1 ≤ t) :
    T_cult t = ⌈(t : ℚ) / 8⌉ ∧ 1 ≤ T_cult t := by
  have h8 : (0 : ℚ) < 8 := by norm_num
  have hle := Int.le_ceil ((t : ℚ) / 8)
  have H : ((⌈(t : ℚ) / 8⌉ : ℚ)) - 1 < (t : ℚ) / 8 := by
    have := Int.ceil_lt_add_one ((t : ℚ) / 8)
    linarith
  have hint : ((⌈(t : ℚ) / 8⌉ : ℤ) - 1) * 8 < (t : ℤ) := by
    exact_mod_cast (lt_div_iff₀ h8).mp H
  have hint2 : ((⌈(t : ℚ) / 8⌉ : ℤ) - 1) * 8 ≤ (t : ℤ) - 1 := by omega
  have H2 : (((⌈(t : ℚ) / 8⌉ : ℚ)) - 1) * 8 ≤ (t : ℚ) - 1 := by exact_mod_cast hint2
  have hceq : T_cult t = ⌈(t : ℚ) / 8⌉ := by
    unfold T_cult
    refine Int.ceil_eq_iff.mpr ⟨by linarith, by linarith⟩
  have h1 : (1 : ℚ) ≤ (t : ℚ) := by exact_mod_cast h
  have hpos : 0 < ⌈(t : ℚ) / 8⌉ := by
    refine Int.lt_ceil.mpr ?_
    push_cast
    linarith
  exact ⟨hceq, by omega⟩

/-- Witness for C10 at t_cult = 8. -/
theorem T_cult_eps_witness :
    1 ≤ 8 ∧ (T_cult 8 = ⌈(8 : ℚ) / 8⌉ ∧ 1 ≤ T_cult 8) := by
  refine ⟨by norm_num, ?_⟩
  have := T_cult_eps 8 (by norm_num)
  simpa using this

/-- C6 counterexample: with dm > dcult and psucc_growing = None (pC6),
the call does not fail fast before the tick loop: the first two ticks
complete with no error at all (fuel-2 run returns cleanly), and the
missing parameter is discovered only mid-simulation at tick 3, when the
first growing draw is attempted. -/
theorem invalid_parameter_counterexample :
    pC6.dcult < pC6.dm ∧ pC6.psucc_growing = Option.none ∧
    simulate_msd pC6 oracleTrue 2 = Except.ok Option.none ∧
    simulate_msd pC6 oracleTrue 3 = Except.error SimError.psucc_growing_missing := by
  refine ⟨by decide, rfl, ?_, ?_⟩ <;>
    (unfold simulate_msd; rw [derive_pC6]; rfl)

/-- A patch_step failure can only be the missing growth success
probability at the growing draw. -/
theorem patch_step_error (C : Consts) (o : Nat → Bool) (c : Bool) (s : SimState)
    (i : Nat) (e : SimError) (h : patch_step C o c s i = Except.error e) :
    C.psucc_growing = Option.none ∧ e = SimError.psucc_growing_missing := by
  unfold patch_step at h
  split at h
  · cases h
  · dsimp only at h
    repeat' split at h
    all_goals try dsimp only at h
    all_goals (cases h <;> exact ⟨by assumption, rfl⟩)

/-- A patch-pass failure can only be the missing growth success
probability. -/
theorem run_patches_error (C : Consts) (o : Nat → Bool) (c : Bool) :
    ∀ (n i : Nat) (s : SimState) (e : SimError),
      run_patches C o c n i s = Except.error e →
      C.psucc_growing = Option.none ∧ e = SimError.psucc_growing_missing := by
  intro n
  induction n with
  | zero =>
    intro i s e h
    cases h
  | succ n ih =>
    intro i s e h
    unfold run_patches at h
    split at h
    · rename_i e1 hstep
      cases h
      exact patch_step_error C o c s i e1 hstep
    · exact ih _ _ _ h

/-- A tick failure can only be the missing growth success probability. -/
theorem tick_error (C : Consts) (o : Nat → Bool) (s : SimState) (e : SimError)
    (h : tick C o s = Except.error e) :
    C.psucc_growing = Option.none ∧ e = SimError.psucc_growing_missing := by
  unfold tick at h
  dsimp only at h
  split at h
  · rename_i e1 hpass
    cases h
    exact run_patches_error C o _ _ _ _ _ hpass
  · cases h

/-- A loop failure can only be the missing growth success probability,
and requires at least one tick to run. -/
theorem loop_error (C : Consts) (o : Nat → Bool) :
    ∀ (fuel : Nat) (s : SimState) (e : SimError),
      loop C o fuel s = Except.error e →
      C.psucc_growing = Option.none ∧ e = SimError.psucc_growing_missing ∧ 1 ≤ fuel := by
  intro fuel
  induction fuel with
  | zero =>
    intro s e h
    unfold loop at h
    cases h
  | succ n ih =>
    intro s e h
    unfold loop at h
    split at h
    · rename_i e1 htick
      cases h
      have hres := tick_error C o s e htick
      exact ⟨hres.1, hres.2, Nat.succ_le_succ (Nat.zero_le n)⟩
    · split at h
      · cases h
      · have hres := ih _ _ h
        exact ⟨hres.1, hres.2.1, by omega⟩

/-- C6 amended: simulate_msd performs no parameter validation before the
tick loop; its only failure mode is the missing growth success
probability, raised inside the loop (at least one tick executes) when a
growing draw is actually attempted, never before the loop starts. -/
theorem error_only_mid_loop (p : Params) (o : Nat → Bool) (fuel : Nat) (e : SimError)
    (h : simulate_msd p o fuel = Except.error e) :
    p.psucc_growing = Option.none ∧ e = SimError.psucc_growing_missing ∧ 1 ≤ fuel := by
  unfold simulate_msd at h
  dsimp only at h
  split at h
  · rename_i e1 hloop
    cases h
    have hres := loop_error (derive p) o fuel (init_state (derive p)) e hloop
    exact ⟨hres.1, hres.2⟩
  · cases h
  · split at h <;> cases h

/-- Witness for the amended C6 at the concrete erroring run pC6. -/
theorem error_only_mid_loop_witness :
    pC6.psucc_growing = Option.none ∧
    SimError.psucc_growing_missing = SimError.psucc_growing_missing ∧ 1 ≤ 3 := by
  refine error_only_mid_loop pC6 oracleTrue 3 SimError.psucc_growing_missing ?_
  unfold simulate_msd
  rw [derive_pC6]
  rfl

/-- C7 counterexample: the reduced-mode run pC7 (numStages = 1, so zero
interval samples remain after the warm-up drop) returns normally -- no
InsufficientSamples failure exists in the code -- silently carrying the
undefined NaN markers (Option.none) for both interval statistics. -/
theorem insufficient_samples_counterexample :
    pC7.get_all = false ∧
    simulate_msd pC7 oracleTrue 1 = Except.ok (some (SimResult.reduced
      Option.none Option.none (some 0) (some 0))) := by
  refine ⟨rfl, ?_⟩
  unfold simulate_msd
  rw [derive_pC7]
  dsimp only
  have hloop : loop Cc1 oracleTrue 1 (init_state Cc1) = Except.ok (some wStateC3) := by
    rfl
  rw [hloop]
  dsimp only
  norm_num [pC7, pC3, wStateC3, npMean, npStdSqDdof1, npSeSq]

/-- C7 amended: reduced mode performs no sample-count validation: a
terminating reduced-mode run always returns the computed statistics
(never an InsufficientSamples-style error), and the squared standard
error is the undefined NaN marker exactly when its stream holds fewer
than 2 samples. -/
theorem reduced_mode_no_validation (p : Params) (o : Nat → Bool) (fuel : Nat)
    (sf : SimState) (hga : p.get_all = false)
    (h : loop (derive p) o fuel (init_state (derive p)) = Except.ok (some sf)) :
    simulate_msd p o fuel = Except.ok (some (SimResult.reduced
      (npMean (sf.Ts_intv.drop 1)) (npSeSq (sf.Ts_intv.drop 1))
      (npMean sf.Ts_idle) (npSeSq sf.Ts_idle))) ∧
    (∀ l : List Nat, npSeSq l = Option.none ↔ l.length < 2) := by
  constructor
  · unfold simulate_msd
    dsimp only
    rw [h, hga]
    simp
  · intro l
    unfold npSeSq npStdSqDdof1
    by_cases hl : l.length < 2
    · simp [hl]
    · simp [hl]

/-- Witness for the amended C7 at the concrete reduced-mode run pC7. -/
theorem reduced_mode_no_validation_witness :
    pC7.get_all = false ∧
    simulate_msd pC7 oracleTrue 1 = Except.ok (some (SimResult.reduced
      (npMean (wStateC3.Ts_intv.drop 1)) (npSeSq (wStateC3.Ts_intv.drop 1))
      (npMean wStateC3.Ts_idle) (npSeSq wStateC3.Ts_idle))) := by
  have hloop : loop (derive pC7) oracleTrue 1 (init_state (derive pC7)) =
      Except.ok (some wStateC3) := by
    rw [derive_pC7]
    rfl
  exact ⟨rfl, (reduced_mode_no_validation pC7 oracleTrue 1 wStateC3 rfl hloop).1⟩

/-- start_cult_or_not does not move any other arena entry. -/
theorem scon_patches_ne (C : Consts) (s : SimState) (i k : Nat) (hk : k ≠ i) :
    (start_cult_or_not C s i).patches[k]? = s.patches[k]? := by
  unfold start_cult_or_not
  split
  · rfl
  · split
    · exact List.getElem?_set_ne (by omega)
    · split
      · exact List.getElem?_set_ne (by omega)
      · rfl

/-- start_cult_or_not leaves its target patch with status cult or None,
or unchanged (and then its status was already None); the group is never
changed. -/
theorem scon_cases (C : Consts) (s : SimState) (i : Nat) (p : AuxPatch)
    (hp : s.patches[i]? = some p) :
    ∃ q : AuxPatch, (start_cult_or_not C s i).patches[i]? = some q ∧
      q.group = p.group ∧
      (q.status = Status.cult ∨ q.status = Status.none ∨
        (q = p ∧ p.status = Status.none)) := by
  have hlen : i < s.patches.length := (List.getElem?_eq_some.mp hp).1
  unfold start_cult_or_not
  rw [hp]
  dsimp only
  split
  · exact ⟨p.change_status Status.cult, List.getElem?_set_eq_of_lt _ hlen, rfl,
      Or.inl rfl⟩
  · split
    · exact ⟨p.change_status Status.none, List.getElem?_set_eq_of_lt _ hlen, rfl,
      Or.inr (Or.inl rfl)⟩
    · rename_i hne
      exact ⟨p, hp, rfl, Or.inr (Or.inr ⟨rfl, not_not.mp hne⟩)⟩

/-- Overwriting a non-idling patch with a non-idling patch preserves the
idling-slot invariant. -/
theorem invOn_set_nonidle (patches : List AuxPatch) (slots : Option Nat × Option Nat)
    (i : Nat) (p q : AuxPatch) (hInv : IdlingInvOn patches slots)
    (hp : patches[i]? = some p) (hpn : p.status ≠ Status.idling)
    (hq : q.status ≠ Status.idling) :
    IdlingInvOn (patches.set i q) slots := by
  intro g
  obtain ⟨hA, hB⟩ := hInv g
  constructor
  · intro j hj
    obtain ⟨r, hr, hrg, hrs⟩ := hA j hj
    have hji : j ≠ i := by
      intro he
      subst he
      rw [hp] at hr
      cases hr
      exact hpn hrs
    exact ⟨r, by rw [List.getElem?_set_ne (by omega)]; exact hr, hrg, hrs⟩
  · intro k r hk hrg hrs
    by_cases hki : k = i
    · subst hki
      have hlen : k < patches.length := (List.getElem?_eq_some.mp hp).1
      rw [List.getElem?_set_eq_of_lt _ hlen] at hk
      cases hk
      exact absurd hrs hq
    · rw [List.getElem?_set_ne (by omega)] at hk
      exact hB k r hk hrg hrs

/-- start_cult_or_not preserves the idling-slot invariant when its
target is not idling (its own status changes stay within cult and
None and the slots are untouched). -/
theorem scon_inv (C : Consts) (s : SimState) (i : Nat) (hInv : IdlingInv s)
    (hni : ∀ p : AuxPatch, s.patches[i]? = some p → p.status ≠ Status.idling) :
    IdlingInv (start_cult_or_not C s i) := by
  unfold IdlingInv at *
  unfold start_cult_or_not
  split
  · exact hInv
  · rename_i p hp
    split
    · exact invOn_set_nonidle s.patches s.idling_patches i p _ hInv hp (hni p hp)
        (by simp [AuxPatch.change_status])
    · split
      · exact invOn_set_nonidle s.patches s.idling_patches i p _ hInv hp (hni p hp)
          (by simp [AuxPatch.change_status])
      · exact hInv

/-- become_idling preserves the idling-slot invariant when its target is
not currently idling: the previous slot occupant (if any) is first
demoted out of IDLING by start_cult_or_not, then the target becomes the
unique idling patch of its group and the slot points at it. -/
theorem bi_inv (C : Consts) (s : SimState) (i : Nat) (p : AuxPatch)
    (hInv : IdlingInv s) (hp : s.patches[i]? = some p)
    (hpn : p.status ≠ Status.idling) :
    IdlingInv (become_idling C s i) := by
  have hlen : i < s.patches.length := (List.getElem?_eq_some.mp hp).1
  unfold become_idling
  rw [hp]
  dsimp only
  cases hslot : get2 s.idling_patches p.group with
  | none =>
    rw [hp]
    dsimp only
    unfold IdlingInv IdlingInvOn
    intro g
    by_cases hg : g = p.group
    · subst hg
      constructor
      · intro j hj
        rw [get2_set2_self] at hj
        cases hj
        exact ⟨p.change_status Status.idling, List.getElem?_set_eq_of_lt _ hlen, rfl, rfl⟩
      · intro k r hk hrg hrs
        by_cases hki : k = i
        · subst hki
          exact get2_set2_self _ _ _
        · rw [List.getElem?_set_ne (by omega)] at hk
          exact absurd ((hInv p.group).2 k r hk hrg hrs) (by rw [hslot]; simp)
    · constructor
      · intro j hj
        rw [get2_set2_ne _ _ _ _ (fun he => hg he.symm)] at hj
        obtain ⟨r, hr, hrg, hrs⟩ := (hInv g).1 j hj
        have hji : j ≠ i := by
          intro he
          subst he
          rw [hp] at hr
          cases hr
          exact hpn hrs
        exact ⟨r, by rw [List.getElem?_set_ne (by omega)]; exact hr, hrg, hrs⟩
      · intro k r hk hrg hrs
        rw [get2_set2_ne _ _ _ _ (fun he => hg he.symm)]
        by_cases hki : k = i
        · subst hki
          rw [List.getElem?_set_eq_of_lt _ hlen] at hk
          cases hk
          exact absurd (hrg.symm : g = p.group) hg
        · rw [List.getElem?_set_ne (by omega)] at hk
          exact (hInv g).2 k r hk hrg hrs
  | some j =>
    obtain ⟨qj, hqj, hqjg, hqjs⟩ := (hInv p.group).1 j hslot
    have hij : j ≠ i := by
      intro he
      subst he
      rw [hp] at hqj
      cases hqj
      exact hpn hqjs
    have hip : (start_cult_or_not C s j).patches[i]? = some p := by
      rw [scon_patches_ne C s j i (by omega)]
      exact hp
    rw [hip]
    dsimp only
    obtain ⟨qj', hqj', hqj'g, hqj's⟩ := scon_cases C s j qj hqj
    have hqj'ni : qj'.status ≠ Status.idling := by
      rcases hqj's with h | h | ⟨_, h⟩
      · rw [h]
        decide
      · rw [h]
        decide
      · rw [h] at hqjs
        cases hqjs
    have hslots1 : (start_cult_or_not C s j).idling_patches = s.idling_patches :=
      (scon_frame C s j).2.2.2.1
    have hlen1 : (start_cult_or_not C s j).patches.length = s.patches.length :=
      (scon_frame C s j).2.2.2.2.2
    unfold IdlingInv IdlingInvOn
    intro g
    by_cases hg : g = p.group
    · subst hg
      constructor
      · intro j0 hj0
        rw [get2_set2_self] at hj0
        cases hj0
        refine ⟨p.change_status Status.idling, ?_, rfl, rfl⟩
        exact List.getElem?_set_eq_of_lt _ (by omega)
      · intro k r hk hrg hrs
        by_cases hki : k = i
        · subst hki
          exact get2_set2_self _ _ _
        · rw [List.getElem?_set_ne (by omega)] at hk
          by_cases hkj : k = j
          · subst hkj
            rw [hqj'] at hk
            cases hk
            exact absurd hrs hqj'ni
          · rw [scon_patches_ne C s j k (by omega)] at hk
            have hcon := (hInv p.group).2 k r hk hrg hrs
            rw [hslot] at hcon
            cases hcon
            exact absurd rfl hkj
    · constructor
      · intro j0 hj0
        rw [get2_set2_ne _ _ _ _ (fun he => hg he.symm), hslots1] at hj0
        obtain ⟨r, hr, hrg, hrs⟩ := (hInv g).1 j0 hj0
        have hj0i : j0 ≠ i := by
          intro he
          subst he
          rw [hp] at hr
          cases hr
          exact hpn hrs
        have hj0j : j0 ≠ j := by
          intro he
          subst he
          rw [hqj] at hr
          cases hr
          exact hg (by rw [← hrg, hqjg])
        refine ⟨r, ?_, hrg, hrs⟩
        rw [List.getElem?_set_ne (by omega), scon_patches_ne C s j j0 (by omega)]
        exact hr
      · intro k r hk hrg hrs
        rw [get2_set2_ne _ _ _ _ (fun he => hg he.symm), hslots1]
        by_cases hki : k = i
        · subst hki
          rw [List.getElem?_set_eq_of_lt _ (by omega)] at hk
          cases hk
          exact absurd (hrg.symm : g = p.group) hg
        · rw [List.getElem?_set_ne (by omega)] at hk
          by_cases hkj : k = j
          · subst hkj
            rw [hqj'] at hk
            cases hk
            exact absurd hrs hqj'ni
          · rw [scon_patches_ne C s j k (by omega)] at hk
            exact (hInv g).2 k r hk hrg hrs

/-- Every patch transition preserves the idling-slot invariant. -/
theorem patch_step_inv (C : Consts) (o : Nat → Bool) (c : Bool) (s : SimState)
    (i : Nat) (s' : SimState) (hInv : IdlingInv s)
    (h : patch_step C o c s i = Except.ok s') : IdlingInv s' := by
  unfold patch_step at h
  split at h
  · cases h
    exact hInv
  · rename_i p hp
    dsimp only at h
    repeat' split at h
    all_goals try dsimp only at h
    all_goals (cases h <;> first
      | exact hInv
      | (refine scon_inv C _ i hInv fun p' hp' => ?_
         have h2 : s.patches[i]? = some p' := hp'
         rw [hp] at h2
         cases h2
         simp_all)
      | (refine bi_inv C _ i p hInv hp ?_
         simp_all)
      | (refine invOn_set_nonidle s.patches s.idling_patches i p _ hInv hp ?_ ?_ <;>
         simp_all [AuxPatch.change_status]))

/-- The consumption block preserves the idling-slot invariant: it fires
only when both slots are occupied, consumes exactly the two occupants
(by the invariant, the only idling patches) and clears both slots. -/
theorem consume_inv (c : Bool) (s : SimState) (hInv : IdlingInv s) :
    IdlingInv (consume_block c s) := by
  unfold consume_block
  split
  · rename_i i j h1 h2
    obtain ⟨qi, hqi, hqig, hqis⟩ := (hInv 0).1 i (by rw [get2_zero]; exact h1)
    obtain ⟨qj, hqj, hqjg, hqjs⟩ := (hInv 1).1 j (by rw [get2_one]; exact h2)
    have hij : i ≠ j := by
      intro he
      subst he
      rw [hqi] at hqj
      cases hqj
      rw [hqig] at hqjg
      exact absurd hqjg (by decide)
    dsimp only
    have hp0 : s.patches.getD i (AuxPatch.mk Status.none 0 0) = qi := by
      simp [List.getD, hqi]
    rw [hp0]
    have hp1 : (s.patches.set i (qi.change_status Status.consumed)).getD j
        (AuxPatch.mk Status.none 0 0) = qj := by
      simp [List.getD, List.getElem?_set_ne hij, hqj]
    rw [hp1]
    unfold IdlingInv IdlingInvOn
    intro g
    constructor
    · intro j0 hj0
      exact absurd hj0 (by fin_cases g <;> simp [get2])
    · intro k r hk hrg hrs
      exfalso
      by_cases hkj : k = j
      · subst hkj
        rw [List.getElem?_set_eq_of_lt _
          (by rw [List.length_set]; exact (List.getElem?_eq_some.mp hqj).1)] at hk
        cases hk
        simp [AuxPatch.change_status] at hrs
      · by_cases hki : k = i
        · subst hki
          rw [List.getElem?_set_ne (by omega),
            List.getElem?_set_eq_of_lt _ ((List.getElem?_eq_some.mp hqi).1)] at hk
          cases hk
          simp [AuxPatch.change_status] at hrs
        · rw [List.getElem?_set_ne (by omega), List.getElem?_set_ne (by omega)] at hk
          have hB := (hInv g).2 k r hk hrg hrs
          fin_cases g
          · simp only [get2] at hB
            rw [h1] at hB
            cases hB
            exact hki rfl
          · simp only [get2] at hB
            rw [h2] at hB
            cases hB
            exact hkj rfl
  · exact hInv

/-- Advancing the clocks preserves the idling-slot invariant (statuses,
groups and slots are unchanged). -/
theorem advance_inv (s : SimState) (hInv : IdlingInv s) :
    IdlingInv (advance_clocks s) := by
  unfold IdlingInv IdlingInvOn at *
  intro g
  obtain ⟨hA, hB⟩ := hInv g
  constructor
  · intro j hj
    obtain ⟨q, hq, hg, hs⟩ := hA j hj
    refine ⟨{ q with clock := q.clock + 1 }, ?_, hg, hs⟩
    simp [advance_clocks, List.getElem?_map, hq]
  · intro k r hk hg hs
    simp only [advance_clocks, List.getElem?_map] at hk
    rcases Option.map_eq_some'.mp hk with ⟨q, hq, hqr⟩
    subst hqr
    exact hB k q hq hg hs

/-- Every patch of the initial state has status None or cult. -/
theorem init_statuses (C : Consts) (i : Nat) (q : AuxPatch)
    (h : (init_state C).patches[i]? = some q) :
    q.status = Status.none ∨ q.status = Status.cult := by
  have hmem : q ∈ (init_state C).patches := List.getElem?_mem h
  unfold init_state at hmem
  dsimp only at hmem
  rcases List.mem_or_eq_of_mem_set hmem with hmem | rfl
  · rcases List.mem_or_eq_of_mem_set hmem with hmem | rfl
    · rcases List.mem_append.mp hmem with hmem | hmem
      · rw [List.eq_of_mem_replicate hmem]
        exact Or.inl rfl
      · rw [List.eq_of_mem_replicate hmem]
        exact Or.inl rfl
    · exact Or.inr rfl
  · exact Or.inr rfl

/-- The initial state satisfies the idling-slot invariant (both slots
empty, no patch idling). -/
theorem init_inv (C : Consts) : IdlingInv (init_state C) := by
  unfold IdlingInv IdlingInvOn
  intro g
  constructor
  · intro j hj
    have hj' : get2 (Option.none, Option.none) g = some j := hj
    exact absurd hj' (by fin_cases g <;> simp [get2])
  · intro k r hk hrg hrs
    rcases init_statuses C k r hk with h | h <;> rw [h] at hrs <;> cases hrs

/-- Every reachable state satisfies the idling-slot invariant. -/
theorem reachable_inv (C : Consts) (o : Nat → Bool) (s : SimState)
    (h : Reachable C o s) : IdlingInv s := by
  induction h with
  | init => exact init_inv C
  | clocks _ ih => exact advance_inv _ ih
  | patch _ hstep ih => exact patch_step_inv C o _ _ _ _ ih hstep
  | consume _ ih => exact consume_inv _ _ ih

/-- C5: in every reachable state of the tick loop (including the
intermediate states inside a tick), each group's idling slot is Some
exactly when a patch of the group has IDLING status, the slot then
references exactly that patch, and at most one patch per group is
idling; assigning a new patch to an occupied slot goes through
become_idling, which first demotes the previous occupant out of IDLING
via start_cult_or_not. -/
theorem idling_slot_invariant (C : Consts) (o : Nat → Bool) (s : SimState)
    (h : Reachable C o s) :
    IdlingInv s ∧
    ∀ (g : Fin 2) (i j : Nat) (q r : AuxPatch),
      s.patches[i]? = some q → s.patches[j]? = some r → q.group = g → r.group = g →
      q.status = Status.idling → r.status = Status.idling → i = j := by
  have hInv := reachable_inv C o s h
  refine ⟨hInv, fun g i j q r hq hr hqg hrg hqs hrs => ?_⟩
  have e1 := (hInv g).2 i q hq hqg hqs
  have e2 := (hInv g).2 j r hr hrg hrs
  rw [e1] at e2
  exact Option.some.inj e2

/-- Witness for C5 at the reachable initial state. -/
theorem idling_slot_invariant_witness : IdlingInv (init_state Cc1) :=
  (idling_slot_invariant Cc1 oracleTrue (init_state Cc1) Reachable.init).1

/-- start_cult_or_not never produces GROWING status. -/
theorem scon_status_cases (C : Consts) (s : SimState) (i k : Nat) (q : AuxPatch)
    (h : (start_cult_or_not C s i).patches[k]? = some q) :
    s.patches[k]? = some q ∨ q.status = Status.cult ∨ q.status = Status.none := by
  by_cases hki : k = i
  · subst hki
    cases hp : s.patches[k]? with
    | none =>
      unfold start_cult_or_not at h
      rw [hp] at h
      dsimp only at h
      rw [hp] at h
      cases h
    | some p =>
      obtain ⟨q', hq', hg', hs'⟩ := scon_cases C s k p hp
      rw [h] at hq'
      cases hq'
      rcases hs' with h1 | h1 | ⟨h1, h2⟩
      · exact Or.inr (Or.inl h1)
      · exact Or.inr (Or.inr h1)
      · subst h1
        exact Or.inl rfl
  · rw [scon_patches_ne C s i k (by omega)] at h
    exact Or.inl h

/-- become_idling only produces IDLING, cult or None statuses
(besides patches it leaves unchanged). -/
theorem bi_status_cases (C : Consts) (s : SimState) (i k : Nat) (q : AuxPatch)
    (h : (become_idling C s i).patches[k]? = some q) :
    s.patches[k]? = some q ∨ q.status = Status.idling ∨ q.status = Status.cult ∨
      q.status = Status.none := by
  unfold become_idling at h
  cases hp : s.patches[i]? with
  | none =>
    rw [hp] at h
    exact Or.inl h
  | some p =>
    rw [hp] at h
    dsimp only at h
    revert h
    cases hslot : get2 s.idling_patches p.group with
    | none =>
      rw [hp]
      dsimp only
      intro h
      by_cases hki : k = i
      · subst hki
        rw [List.getElem?_set_eq_of_lt _ (List.getElem?_eq_some.mp hp).1] at h
        cases h
        exact Or.inr (Or.inl rfl)
      · rw [List.getElem?_set_ne (by omega)] at h
        exact Or.inl h
    | some j =>
      have hip : (start_cult_or_not C s j).patches[i]? =
          s.patches[i]? ∨ i = j := by
        by_cases hij : i = j
        · exact Or.inr hij
        · exact Or.inl (scon_patches_ne C s j i (by omega))
      dsimp only
      intro h
      rcases Decidable.em (i = j) with hij | hij
      · subst hij
        -- the demoted previous occupant is the target itself; the final
        -- write still installs IDLING at i or leaves the arena lookup
        -- at k untouched
        revert h
        cases hip2 : (start_cult_or_not C s i).patches[i]? with
        | none =>
          intro h
          by_cases hki : k = i
          · subst hki
            rw [hip2] at h
            cases h
          · rcases scon_status_cases C s i k q h with h1 | h1 | h1
            · exact Or.inl h1
            · exact Or.inr (Or.inr (Or.inl h1))
            · exact Or.inr (Or.inr (Or.inr h1))
        | some p2 =>
          intro h
          by_cases hki : k = i
          · subst hki
            have hkl : k < (start_cult_or_not C s k).patches.length := by
              rw [(scon_frame C s k).2.2.2.2.2]
              exact (List.getElem?_eq_some.mp hp).1
            rw [List.getElem?_set_eq_of_lt _ hkl] at h
            cases h
            exact Or.inr (Or.inl rfl)
          · rw [List.getElem?_set_ne (by omega)] at h
            rcases scon_status_cases C s i k q h with h1 | h1 | h1
            · exact Or.inl h1
            · exact Or.inr (Or.inr (Or.inl h1))
            · exact Or.inr (Or.inr (Or.inr h1))
      · have hip3 : (start_cult_or_not C s j).patches[i]? = some p := by
          rw [scon_patches_ne C s j i (by omega)]
          exact hp
        revert h
        rw [hip3]
        dsimp only
        intro h
        by_cases hki : k = i
        · subst hki
          have hkl : k < (start_cult_or_not C s j).patches.length := by
            rw [(scon_frame C s j).2.2.2.2.2]
            exact (List.getElem?_eq_some.mp hp).1
          rw [List.getElem?_set_eq_of_lt _ hkl] at h
          cases h
          exact Or.inr (Or.inl rfl)
        · rw [List.getElem?_set_ne (by omega)] at h
          rcases scon_status_cases C s j k q h with h1 | h1 | h1
          · exact Or.inl h1
          · exact Or.inr (Or.inr (Or.inl h1))
          · exact Or.inr (Or.inr (Or.inr h1))

/-- The consumption block only writes CONSUMED statuses. -/
theorem consume_status_cases (c : Bool) (s : SimState) (k : Nat) (q : AuxPatch)
    (h : (consume_block c s).patches[k]? = some q) :
    s.patches[k]? = some q ∨ q.status = Status.consumed := by
  unfold consume_block at h
  split at h
  · rename_i i j h1 h2
    dsimp only at h
    have hklen : k < s.patches.length := by
      have := (List.getElem?_eq_some.mp h).1
      simpa using this
    by_cases hkj : k = j
    · subst hkj
      rw [List.getElem?_set_eq_of_lt _ (by simpa using hklen)] at h
      cases h
      exact Or.inr rfl
    · rw [List.getElem?_set_ne (by omega)] at h
      by_cases hki : k = i
      · subst hki
        rw [List.getElem?_set_eq_of_lt _ hklen] at h
        cases h
        exact Or.inr rfl
      · rw [List.getElem?_set_ne (by omega)] at h
        exact Or.inl h
  · exact Or.inl h

/-- start_cult_or_not never writes GROWING status. -/
theorem scon_nogrow (C : Consts) (s : SimState) (i : Nat)
    (hs : NoGrowingOn s.patches) : NoGrowingOn (start_cult_or_not C s i).patches := by
  intro k q hk
  rcases scon_status_cases C s i k q hk with h1 | h1 | h1
  · exact hs k q h1
  · rw [h1]
    decide
  · rw [h1]
    decide

/-- become_idling never writes GROWING status. -/
theorem bi_nogrow (C : Consts) (s : SimState) (i : Nat)
    (hs : NoGrowingOn s.patches) : NoGrowingOn (become_idling C s i).patches := by
  intro k q hk
  rcases bi_status_cases C s i k q hk with h1 | h1 | h1 | h1
  · exact hs k q h1
  · rw [h1]
    decide
  · rw [h1]
    decide
  · rw [h1]
    decide

/-- The consumption block never writes GROWING status. -/
theorem consume_nogrow (c : Bool) (s : SimState)
    (hs : NoGrowingOn s.patches) : NoGrowingOn (consume_block c s).patches := by
  intro k q hk
  rcases consume_status_cases c s k q hk with h1 | h1
  · exact hs k q h1
  · rw [h1]
    decide

/-- Advancing the clocks changes no status. -/
theorem advance_nogrow (s : SimState) (hs : NoGrowingOn s.patches) :
    NoGrowingOn (advance_clocks s).patches := by
  intro k q hk
  simp only [advance_clocks, List.getElem?_map] at hk
  rcases Option.map_eq_some'.mp hk with ⟨p, hp, hpq⟩
  subst hpq
  exact hs k p hp

/-- With need_growing = false a patch transition can neither fail nor
create a GROWING patch: the growing branch is guarded by a GROWING
status that no patch has, and the cult success branch goes straight to
the idling slot. -/
theorem patch_step_nogrow (C : Consts) (o : Nat → Bool) (c : Bool) (s : SimState)
    (i : Nat) (hng : C.need_growing = false) (hs : NoGrowingOn s.patches) :
    ∃ s', patch_step C o c s i = Except.ok s' ∧ NoGrowingOn s'.patches := by
  unfold patch_step
  cases hp : s.patches[i]? with
  | none => exact ⟨s, rfl, hs⟩
  | some p =>
    try dsimp only
    by_cases h1 : p.status = Status.none
    · rw [if_pos h1]
      exact ⟨_, rfl, scon_nogrow C s i hs⟩
    · rw [if_neg h1]
      by_cases h2 : p.status = Status.cult ∧ p.clock = C.T_cult
      · rw [if_pos h2]
        try dsimp only
        rw [hng]
        simp only [Bool.or_false, Bool.false_eq_true, if_false]
        by_cases h3 : (if c = true then (o s.pos, s.pos + 1) else (false, s.pos)).1 = true
        · rw [if_pos h3]
          exact ⟨_, rfl, bi_nogrow C _ i hs⟩
        · rw [if_neg h3]
          exact ⟨_, rfl, scon_nogrow C _ i hs⟩
      · rw [if_neg h2]
        by_cases h3 : p.status = Status.growing ∧ p.clock = C.T_growing
        · exact absurd h3.1 (hs i p hp)
        · rw [if_neg h3]
          by_cases h4 : p.status = Status.consumed ∧ p.clock = C.dm + 1
          · rw [if_pos h4]
            exact ⟨_, rfl, scon_nogrow C s i hs⟩
          · rw [if_neg h4]
            exact ⟨s, rfl, hs⟩

/-- With need_growing = false the whole patch pass can neither fail nor
create a GROWING patch. -/
theorem run_patches_nogrow (C : Consts) (o : Nat → Bool) (c : Bool)
    (hng : C.need_growing = false) :
    ∀ (n i : Nat) (s : SimState), NoGrowingOn s.patches →
      ∃ s', run_patches C o c n i s = Except.ok s' ∧ NoGrowingOn s'.patches := by
  intro n
  induction n with
  | zero => exact fun i s hs => ⟨s, rfl, hs⟩
  | succ n ih =>
    intro i s hs
    obtain ⟨s1, hstep, hs1⟩ := patch_step_nogrow C o c s i hng hs
    obtain ⟨s', hrun, hs'⟩ := ih (i + 1) s1 hs1
    refine ⟨s', ?_, hs'⟩
    unfold run_patches
    rw [hstep]
    exact hrun

/-- With need_growing = false a tick can neither fail nor create a
GROWING patch. -/
theorem tick_nogrow (C : Consts) (o : Nat → Bool) (s : SimState)
    (hng : C.need_growing = false) (hs : NoGrowingOn s.patches) :
    ∃ s', tick C o s = Except.ok s' ∧ NoGrowingOn s'.patches := by
  obtain ⟨s2, hrun, hs2⟩ := run_patches_nogrow C o (consumableOf C (advance_clocks s))
    hng (advance_clocks s).patches.length 0 (advance_clocks s) (advance_nogrow s hs)
  refine ⟨consume_block (consumableOf C (advance_clocks s)) s2, ?_, ?_⟩
  · unfold tick
    dsimp only
    rw [hrun]
  · exact consume_nogrow _ _ hs2

/-- With need_growing = false the loop never fails, whatever the fuel. -/
theorem loop_nogrow (C : Consts) (o : Nat → Bool) (hng : C.need_growing = false) :
    ∀ (fuel : Nat) (s : SimState), NoGrowingOn s.patches →
      ∃ r, loop C o fuel s = Except.ok r := by
  intro fuel
  induction fuel with
  | zero => exact fun s _ => ⟨Option.none, rfl⟩
  | succ n ih =>
    intro s hs
    obtain ⟨s1, htick, hs1⟩ := tick_nogrow C o s hng hs
    unfold loop
    rw [htick]
    by_cases hlen : s1.Ts_intv.length = C.num_stages
    · exact ⟨some s1, by dsimp only; rw [if_pos hlen]⟩
    · obtain ⟨r, hr⟩ := ih s1 hs1
      exact ⟨r, by dsimp only; rw [if_neg hlen]; exact hr⟩

/-- No patch of the initial state is GROWING. -/
theorem init_nogrow (C : Consts) : NoGrowingOn (init_state C).patches := by
  intro k q hk
  rcases init_statuses C k q hk with h1 | h1 <;> rw [h1] <;> decide

/-- With need_growing = false no reachable state contains a GROWING
patch. -/
theorem reachable_nogrow (C : Consts) (o : Nat → Bool) (hng : C.need_growing = false)
    (s : SimState) (h : Reachable C o s) : NoGrowingOn s.patches := by
  induction h with
  | init => exact init_nogrow C
  | clocks _ ih => exact advance_nogrow _ ih
  | patch _ hstep ih =>
    obtain ⟨s2, hstep2, hs2⟩ := patch_step_nogrow C o _ _ _ hng ih
    have he := hstep2.symm.trans hstep
    cases he
    exact hs2
  | consume _ ih => exact consume_nogrow _ _ ih

/-- C9: when dm ≤ dcult, growth is disabled: no reachable state contains
a GROWING patch (the only entry into that status is gated by
need_growing), hence the growing draw -- the only place psucc_growing is
consulted and the only possible failure -- is unreachable, and the call
never fails even with psucc_growing absent. -/
theorem growing_skip (p : Params) (o : Nat → Bool) (h : p.dm ≤ p.dcult) :
    (∀ s : SimState, Reachable (derive p) o s →
      ∀ (i : Nat) (q : AuxPatch), s.patches[i]? = some q →
        q.status ≠ Status.growing) ∧
    (∀ (fuel : Nat) (e : SimError), simulate_msd p o fuel ≠ Except.error e) := by
  have hng : (derive p).need_growing = false := by
    unfold derive
    dsimp only
    simp only [decide_eq_false_iff_not]
    omega
  constructor
  · exact fun s hs => reachable_nogrow (derive p) o hng s hs
  · intro fuel e hcontra
    unfold simulate_msd at hcontra
    dsimp only at hcontra
    obtain ⟨r, hr⟩ := loop_nogrow (derive p) o hng fuel (init_state (derive p))
      (init_nogrow (derive p))
    rw [hr] at hcontra
    cases r with
    | none => cases hcontra
    | some sf =>
      dsimp only at hcontra
      split at hcontra <;> cases hcontra

/-- Witness for C9 at the concrete growth-free run pC3. -/
theorem growing_skip_witness :
    pC3.dm ≤ pC3.dcult ∧
    simulate_msd pC3 oracleTrue 5 ≠ Except.error SimError.psucc_growing_missing :=
  ⟨by decide, (growing_skip pC3 oracleTrue (by decide)).2 5 SimError.psucc_growing_missing⟩
